import Mathlib

/-!
# Verification of the ovpn-dco data-channel engine

Shallow embedding of the two source files of the repository:

* `net/ovpn-dco/pktid.c` — packet-id replay detection (`__ovpn_pktid_recv`)
  and the transmit packet-id source;
* `net/ovpn-dco/ovpn.c` — datapath engine (RX dispatch `ovpn_recv_crypto`,
  post-decrypt handler `tun_netdev_write`, TX entry `do_ovpn_net_xmit`).

Machine integers are modelled as `Nat` with explicit `% 2^32` where the
C unsigned arithmetic can wrap.  The jiffies clock is passed in as an
explicit `now : Nat` argument; `time_after_eq(now, e)` is modelled as
`e ≤ now`.  The `history` bitmap (a `REPLAY_WINDOW_SIZE`-bit circular
byte array in C) is modelled as the `Finset ℕ` of set bit positions.

Constants and helpers that live in headers which are not part of the
repository snapshot (`pktid.h`, `proto.h`, `bind.h`) are modelled from
the specification and marked as such in their doc comments.
-/

namespace OvpnDco

/-- `2^32`: modulus of the C `__u32` arithmetic. -/
def U32 : Nat := 4294967296

/-- Modelled from the spec: `REPLAY_WINDOW_SIZE` is defined in `pktid.h`,
which is missing from the snapshot; the spec says the window is a
compile-time power-of-two constant, "the equivalent of 128 or 256 bits",
and that implementers may parameterize it.  We take 256 for the concrete
constant and keep the window size `W` as an explicit parameter of every
definition so that the theorems hold for every window size. -/
def REPLAY_WINDOW_SIZE : Nat := 256

/-- Modelled from the spec: `PKTID_RECV_EXPIRE` (defined in the missing
`pktid.h`) is "~30 s" of jiffies; with HZ = 1000 this is 30000.  Only its
positivity matters for the theorems below. -/
def PKTID_RECV_EXPIRE : Nat := 30000

/-- The `REPLAY_INDEX(base, i)` macro of `pktid.h` (modelled from the
spec: `ri(base, k) = (base + k) mod W`).  In C it is
`((base) + (i)) & (REPLAY_WINDOW_SIZE - 1)` on unsigned arithmetic with a
possibly negative signed `i`; since the window size divides `2^32` this
equals the mathematical `(base + i) mod W`, which we compute over `Int`. -/
def replayIndex (W : Nat) (base : Nat) (i : Int) : Nat :=
  (((base : Int) + i) % (W : Int)).toNat

/-- Error codes returned (negated) by `__ovpn_pktid_recv`. -/
inductive PktidErr where
  /-- `OVPN_ERR_PKTID_ID_ZERO` -/
  | idZero
  /-- `OVPN_ERR_PKTID_TIME_BACKTRACK` -/
  | timeBacktrack
  /-- `OVPN_ERR_PKTID_REPLAY` -/
  | replay
  /-- `OVPN_ERR_PKTID_EXPIRE` -/
  | expire
  /-- `OVPN_ERR_PKTID_ID_BACKTRACK` -/
  | idBacktrack
deriving DecidableEq, Repr

/-- `struct ovpn_pktid_recv` (sans the spin lock, which serializes calls
and is modelled away): the sliding-window replay state.  `history` is the
set of positions of set bits of the C bitmap. -/
structure PktidRecv where
  base : Nat
  extent : Nat
  history : Finset Nat
  id : Nat
  id_floor : Nat
  max_backtrack : Nat
  /-- the `time` field: the epoch of the current window -/
  time : Nat
  /-- jiffies deadline after which backtracks at or below `id` expire -/
  expire : Nat
deriving DecidableEq

/-- `ovpn_pktid_recv_init`: the struct is `memset` to zero. -/
def ovpn_pktid_recv_init : PktidRecv :=
  { base := 0, extent := 0, history := ∅, id := 0, id_floor := 0,
    max_backtrack := 0, time := 0, expire := 0 }

/-- Pktid.c lines 93-94: `if (delta > pr->max_backtrack)
pr->max_backtrack = delta` — the diagnostic backtrack maximum. -/
def pktidMaxBacktrack (pr : PktidRecv) (delta : Nat) : PktidRecv :=
  if pr.max_backtrack < delta then { pr with max_backtrack := delta } else pr

/-- The lower half of `__ovpn_pktid_recv` (pktid.c lines 62-110): the
three-way comparison of `pkt_id` against `pr->id`, reached after the
zero-id and epoch checks.  Every path that falls through to line 109
sets `expire := now + PKTID_RECV_EXPIRE` and accepts. -/
def pktidRecvCompareId (W : Nat) (pr : PktidRecv) (pkt_id now : Nat) :
    PktidRecv × Option PktidErr :=
  if pkt_id = (pr.id + 1) % U32 then
    -- well-formed ID sequence (incremented by 1)
    let base := replayIndex W pr.base (-1)
    ({ pr with base := base,
               history := insert base pr.history,
               extent := if pr.extent < W then pr.extent + 1 else pr.extent,
               id := pkt_id,
               expire := now + PKTID_RECV_EXPIRE }, none)
  else if pr.id < pkt_id then
    -- ID jumped forward by more than one
    let delta := pkt_id - pr.id
    if delta < W then
      let base := replayIndex W pr.base (-(delta : Int))
      -- set the new base bit, then clear the `delta - 1` intervening bits
      let hist :=
        ((List.range delta).drop 1).foldl
          (fun h i => h.erase (replayIndex W base (i : Int)))
          (insert base pr.history)
      ({ pr with base := base,
                 history := hist,
                 extent := min (pr.extent + delta) W,
                 id := pkt_id,
                 expire := now + PKTID_RECV_EXPIRE }, none)
    else
      ({ pr with base := 0,
                 extent := W,
                 history := {0},
                 id := pkt_id,
                 expire := now + PKTID_RECV_EXPIRE }, none)
  else
    -- ID backtrack
    let delta := pr.id - pkt_id
    let pr := pktidMaxBacktrack pr delta
    if delta < pr.extent then
      if pr.id_floor < pkt_id then
        let ri := replayIndex W pr.base (delta : Int)
        if ri ∈ pr.history then
          (pr, some PktidErr.replay)
        else
          ({ pr with history := insert ri pr.history,
                     expire := now + PKTID_RECV_EXPIRE }, none)
      else
        (pr, some PktidErr.expire)
    else
      (pr, some PktidErr.idBacktrack)

/-- Pktid.c lines 40-41: `if (time_after_eq(now, pr->expire)) pr->id_floor = pr->id`
— expire backtracks at or below `pr->id` after `PKTID_RECV_EXPIRE` time. -/
def pktidExpireFloor (pr : PktidRecv) (now : Nat) : PktidRecv :=
  if pr.expire ≤ now then { pr with id_floor := pr.id } else pr

/-- Pktid.c lines 44-60, then falling through to the id comparison:
the zero-id check and the epoch (`time`) handling. -/
def pktidRecvCheck (W : Nat) (pr : PktidRecv) (pkt_id pkt_time now : Nat) :
    PktidRecv × Option PktidErr :=
  -- ID must not be zero
  if pkt_id = 0 then (pr, some PktidErr.idZero)
  else if pkt_time ≠ pr.time then
    if pr.time < pkt_time then
      -- time moved forward, accept
      pktidRecvCompareId W
        { pr with base := 0, extent := 0, id := 0, time := pkt_time, id_floor := 0 }
        pkt_id now
    else
      -- time moved backward, reject
      (pr, some PktidErr.timeBacktrack)
  else
    pktidRecvCompareId W pr pkt_id now

/-- `__ovpn_pktid_recv` (pktid.c lines 35-111).  `W` is the window size
(`REPLAY_WINDOW_SIZE` in the source), `now` the jiffies clock.  Returns
the updated state together with `none` on accept or the error on
reject. -/
def __ovpn_pktid_recv (W : Nat) (pr : PktidRecv) (pkt_id pkt_time now : Nat) :
    PktidRecv × Option PktidErr :=
  pktidRecvCheck W (pktidExpireFloor pr now) pkt_id pkt_time now

/-- The window state after the epoch-reset assignments of pktid.c
lines 51-55 (`base = 0; extent = 0; id = 0; time = pkt_time;
id_floor = 0`). -/
def pktidResetState (pr : PktidRecv) (pkt_time : Nat) : PktidRecv :=
  { pr with base := 0, extent := 0, id := 0, time := pkt_time, id_floor := 0 }

/-- Run the detector over a list of packet ids, all presented with the
same epoch `pkt_time` and the same clock `now`; returns the final state
and the per-packet results. -/
def pktidRecvRun (W : Nat) (pr : PktidRecv) (pkt_time now : Nat) :
    List Nat → PktidRecv × List (Option PktidErr)
  | [] => (pr, [])
  | i :: L =>
    let r := __ovpn_pktid_recv W pr i pkt_time now
    let rest := pktidRecvRun W r.1 pkt_time now L
    (rest.1, r.2 :: rest.2)

/-- Run the detector over a trace of `(pkt_id, pkt_time, now)` triples,
collecting the `(epoch, id)` pairs that were accepted. -/
def pktidRecvTrace (W : Nat) (pr : PktidRecv) :
    List (Nat × Nat × Nat) → PktidRecv × List (Nat × Nat)
  | [] => (pr, [])
  | x :: L =>
    let r := __ovpn_pktid_recv W pr x.1 x.2.1 x.2.2
    let rest := pktidRecvTrace W r.1 L
    (rest.1, (if r.2 = none then [(x.2.1, x.1)] else []) ++ rest.2)

/-- The ids of the full window below top id `id0`:
`{id0 - W + 1, …, id0}`, listed as `id0 - d` for `d < W`. -/
def windowIds (id0 W : Nat) : List Nat :=
  (List.range W).map (fun d => id0 - d)

/-! ## Transmit packet-id source (`ovpn_pktid_xmit`, pktid.c lines 17-21
and the `next()` operation of the spec's §4.2) -/

/-- `struct ovpn_pktid_xmit` (sans `tcp_linear`, which is only set to
`NULL` in the source): the 64-bit atomic sequence counter.  The atomic
accesses are serialized in this model. -/
structure PktidXmit where
  seq_num : Nat
deriving DecidableEq

/-- Error of the transmit packet-id source. -/
inductive PktidXmitErr where
  /-- REKEY-NEEDED: the 32-bit packet-id would wrap -/
  | rekeyNeeded
deriving DecidableEq, Repr

/-- `ovpn_pktid_xmit_init` (pktid.c lines 17-21): the counter starts at
zero. -/
def ovpn_pktid_xmit_init : PktidXmit := { seq_num := 0 }

/-- Modelled from the spec (§4.2): the `next()` operation of the transmit
packet-id source is declared in `pktid.h`, which is missing from the
snapshot.  Per the spec, the 64-bit counter is incremented and the low 32
bits are the packet-id; "when a rollover would cause the packet-id to
equal `0xFFFFFFFF` or exceed it under the layout in use, the next call
fails" with REKEY-NEEDED (and, the counter never wrapping without a
rekey, it is left where it is).  On success the emitted packet-id is the
incremented counter value. -/
def ovpn_pktid_xmit_next (p : PktidXmit) : PktidXmit × Except PktidXmitErr Nat :=
  if 4294967295 ≤ p.seq_num + 1 then
    (p, Except.error PktidXmitErr.rekeyNeeded)
  else
    ({ seq_num := p.seq_num + 1 }, Except.ok (p.seq_num + 1))

/-! ## Protocol codec (modelled from spec §4.4; `proto.h` is missing from
the snapshot) -/

/-- Modelled from the spec: the opcode is the top 5 bits of the opcode
byte (the first byte of the datagram after the UDP header). -/
def ovpn_opcode_extract (op : Nat) : Nat := (op % 256) / 8

/-- Modelled from the spec: the key-id is the low 3 bits of the opcode
byte. -/
def ovpn_key_id_extract (op : Nat) : Nat := op % 8

/-- Modelled from the spec: the data-channel opcode `DATA_V1`; the
concrete value is the standard OpenVPN one (the theorems do not depend
on it). -/
def OVPN_DATA_V1 : Nat := 6

/-- Modelled from the spec: the data-channel opcode `DATA_V2`; the
concrete value is the standard OpenVPN one (the theorems do not depend
on it). -/
def OVPN_DATA_V2 : Nat := 9

/-- Modelled from the spec: `is_data(op)` — the opcode discriminates the
data-channel variants `DATA_V1`/`DATA_V2` from the control-channel
variants. -/
def ovpn_opcode_is_data (op : Nat) : Bool :=
  ovpn_opcode_extract op = OVPN_DATA_V1 || ovpn_opcode_extract op = OVPN_DATA_V2

/-- Modelled from the spec (§6): the fixed 16-byte keepalive message,
recognized by exact bytewise match.  The byte values are the well-known
OpenVPN keepalive magic; only exact-match recognition and the first byte
not carrying an IPv4/IPv6 version nibble matter for the theorems. -/
def ovpn_keepalive_message : List Nat :=
  [0x2a, 0x18, 0x7b, 0xf3, 0x64, 0x1e, 0xb4, 0xcb,
   0x07, 0xed, 0x2d, 0x0a, 0x98, 0x1f, 0xc7, 0x48]

/-- Modelled from the spec (§4.4): keepalive recognition is an exact
bytewise match of the decrypted payload against the 16-byte keepalive
message. -/
def ovpn_is_keepalive (skb : List Nat) : Bool :=
  skb = ovpn_keepalive_message

/-- Modelled from the spec (§4.4): the IP header probe inspects the first
byte of the payload, distinguishing IPv4 (top nibble `0x4`) from IPv6
(`0x6`), checks the declared header length against the buffer length and
rejects anything else.  Returns the IP version on success, a negative
errno on failure (`-22 = -EINVAL`, `-93 = -EPROTONOSUPPORT`). -/
def ovpn_ip_header_probe (skb : List Nat) : Except Int Nat :=
  match skb.head? with
  | none => Except.error (-22)
  | some b =>
    if b / 16 = 4 then
      if 20 ≤ skb.length then Except.ok 4 else Except.error (-22)
    else if b / 16 = 6 then
      if 40 ≤ skb.length then Except.ok 6 else Except.error (-22)
    else Except.error (-93)

/-! ## RX dispatch (`ovpn_recv_crypto`, ovpn.c lines 216-257) -/

/-- The peer state visible to `ovpn_recv_crypto`: the per-key-id crypto
context table (`ovpn_crypto_context_from_state` on `peer->crypto`).
A context is abstracted to a label. -/
structure RxPeer where
  crypto : Nat → Option Nat

/-- What `ovpn_recv_crypto` does with a received transport packet. -/
inductive RxResult where
  /-- forwarded verbatim to the control plane (userspace via
  `ovpn_netlink_send_packet`) -/
  | userspace (payload : List Nat)
  /-- dropped: no crypto context for the key id -/
  | dropNoCtx
  /-- offered to the AEAD decrypt of context `cc` -/
  | decrypt (cc : Nat) (keyId : Nat) (op : Nat) (payload : List Nat)
deriving DecidableEq

/-- `ovpn_recv_crypto` (ovpn.c lines 216-257): only `OVPN_DATA_Vx`
packets from known peers are decrypted; all other packets are sent to
userspace via netlink.  The netlink send, the stats bookkeeping and the
reference counting are abstracted away; the decrypt call itself and its
completion are outside this function's decision. -/
def ovpn_recv_crypto (peer : Option RxPeer) (op : Nat) (skb : List Nat) :
    RxResult :=
  match peer with
  | none => RxResult.userspace skb
  | some p =>
    if ovpn_opcode_is_data op = false then RxResult.userspace skb
    else
      match p.crypto (ovpn_key_id_extract op) with
      | none => RxResult.dropNoCtx
      | some cc => RxResult.decrypt cc (ovpn_key_id_extract op) op skb

/-! ## Post-decrypt handler (`tun_netdev_write`, ovpn.c lines 54-129) -/

/-- How `tun_netdev_write` disposes of the decrypted buffer. -/
inductive TunWriteEffect where
  /-- handed to the virtual interface's receive entry (`netif_rx`) -/
  | netifRx (payload : List Nat)
  /-- `consume_skb`: silently consumed (the keepalive path) -/
  | consumed
  /-- `kfree_skb`: dropped with an error -/
  | freed
deriving DecidableEq

/-- The observable outcome of `tun_netdev_write`. -/
structure TunWriteOut where
  /-- `ovpn_peer_update_keepalive_expire` was called (the peer's RX
  keepalive timestamp was refreshed) -/
  keepaliveUpdated : Bool
  effect : TunWriteEffect
  ret : Int
deriving DecidableEq

/-- `tun_netdev_write` (ovpn.c lines 54-129), called after a successful
decrypt.  The keepalive-RX timestamp update and the RX stats increment
happen first, unconditionally; then the IP header probe; on probe
failure, a null packet is freed with `-EINVAL`, a keepalive is consumed
silently with return 0, anything else is freed with the probe's error. -/
def tun_netdev_write (skb : List Nat) : TunWriteOut :=
  match ovpn_ip_header_probe skb with
  | Except.ok _ =>
    { keepaliveUpdated := true, effect := TunWriteEffect.netifRx skb, ret := 0 }
  | Except.error e =>
    if skb.length < 1 then
      { keepaliveUpdated := true, effect := TunWriteEffect.freed, ret := -22 }
    else if ovpn_is_keepalive skb then
      { keepaliveUpdated := true, effect := TunWriteEffect.consumed, ret := 0 }
    else
      { keepaliveUpdated := true, effect := TunWriteEffect.freed, ret := e }

/-! ## TX entry (`do_ovpn_net_xmit`, ovpn.c lines 519-569) -/

/-- `ETH_HLEN` from `<uapi/linux/if_ether.h>`. -/
def ETH_HLEN : Nat := 14

/-- The binding, as far as the TX headroom computation sees it. -/
structure OvpnBind where
  /-- the binding's address family is `AF_INET6` rather than `AF_INET` -/
  isIPv6 : Bool
deriving DecidableEq

/-- Modelled from the spec (§3, §4.6): `ovpn_bind_udp_encap_overhead`
(declared in `bind.h`, missing from the snapshot) computes the UDP
encapsulation overhead of the binding — IP header plus UDP header plus
the link-layer length passed in.  Its value is irrelevant to the claims;
only the fact that the variable receiving it is unsigned matters. -/
def ovpn_bind_udp_encap_overhead (bind : OvpnBind) (linkLen : Nat) : Nat :=
  (if bind.isIPv6 then 40 else 20) + 8 + linkLen

/-- The peer state visible to `do_ovpn_net_xmit`. -/
structure XmitPeer where
  bind : Option OvpnBind
  /-- `ovpn_crypto_context_primary`: the primary crypto context (a
  label) and its key id, if any -/
  primary : Option (Nat × Nat)

/-- What `do_ovpn_net_xmit` does with the buffer. -/
inductive XmitResult where
  /-- `-ENOLINK`: no peer installed -/
  | noLink
  /-- `-ENOENT`: no binding -/
  | noBind
  /-- the `headroom < 0` guard fired (drop) -/
  | headroomDrop
  /-- `-ENODEV`: no primary crypto context -/
  | noCtx
  /-- submitted to AEAD encrypt with this headroom and key id -/
  | encrypt (cc : Nat) (headroom : Nat) (keyId : Nat)
deriving DecidableEq

/-- `do_ovpn_net_xmit` (ovpn.c lines 519-569), up to the encrypt
submission.  `headroom` is `unsigned int` in the source, modelled as
`Nat`; the guard is the literal comparison `headroom < 0` of ovpn.c
line 542. -/
def do_ovpn_net_xmit (peer : Option XmitPeer) : XmitResult :=
  match peer with
  | none => XmitResult.noLink
  | some p =>
    match p.bind with
    | none => XmitResult.noBind
    | some bind =>
      let headroom : Nat := ovpn_bind_udp_encap_overhead bind ETH_HLEN
      if headroom < 0 then XmitResult.headroomDrop
      else
        match p.primary with
        | none => XmitResult.noCtx
        | some ck => XmitResult.encrypt ck.1 headroom ck.2

/-- The invariant driving the window-accept property (claim C1): the
window is at full extent `W` with top id `id0`, epoch `t`, floor `f0`,
base `b0`, the window has not expired at `now`, and the ring bit at
offset `d` is set exactly for the window ids `id0 - d` satisfying the
predicate `P` (the ids presented and accepted so far). -/
def C1Inv (W id0 t now b0 f0 : Nat) (P : Nat → Prop) (s : PktidRecv) : Prop :=
  s.base = b0 ∧ s.extent = W ∧ s.id = id0 ∧ s.id_floor = f0 ∧ s.time = t ∧
  now < s.expire ∧
  ∀ d, d < W → (replayIndex W b0 (d : Int) ∈ s.history ↔ P (id0 - d))

/-- The window invariant of claim C5: `extent ≤ W`, the top id fits in
32 bits, and every set bit at ring offset `d < extent` corresponds to a
packet id `id0 - d` (strictly positive, hence `d < id`) that satisfies
`A epoch id` — in the theorems, "was previously accepted at the current
epoch". -/
def PktidWindowInv (W : Nat) (A : Nat → Nat → Prop) (s : PktidRecv) : Prop :=
  s.extent ≤ W ∧ s.id < U32 ∧
  ∀ d, d < s.extent → replayIndex W s.base (d : Int) ∈ s.history →
    d < s.id ∧ A s.time (s.id - d)

/-! ## Helper lemmas: the expire-floor tweak touches only `id_floor` -/

@[simp] lemma pktidExpireFloor_base (pr : PktidRecv) (now : Nat) :
    (pktidExpireFloor pr now).base = pr.base := by
  unfold pktidExpireFloor; split <;> rfl

@[simp] lemma pktidExpireFloor_extent (pr : PktidRecv) (now : Nat) :
    (pktidExpireFloor pr now).extent = pr.extent := by
  unfold pktidExpireFloor; split <;> rfl

@[simp] lemma pktidExpireFloor_history (pr : PktidRecv) (now : Nat) :
    (pktidExpireFloor pr now).history = pr.history := by
  unfold pktidExpireFloor; split <;> rfl

@[simp] lemma pktidExpireFloor_id (pr : PktidRecv) (now : Nat) :
    (pktidExpireFloor pr now).id = pr.id := by
  unfold pktidExpireFloor; split <;> rfl

@[simp] lemma pktidExpireFloor_max_backtrack (pr : PktidRecv) (now : Nat) :
    (pktidExpireFloor pr now).max_backtrack = pr.max_backtrack := by
  unfold pktidExpireFloor; split <;> rfl

@[simp] lemma pktidExpireFloor_time (pr : PktidRecv) (now : Nat) :
    (pktidExpireFloor pr now).time = pr.time := by
  unfold pktidExpireFloor; split <;> rfl

@[simp] lemma pktidExpireFloor_expire (pr : PktidRecv) (now : Nat) :
    (pktidExpireFloor pr now).expire = pr.expire := by
  unfold pktidExpireFloor; split <;> rfl

lemma pktidExpireFloor_id_floor (pr : PktidRecv) (now : Nat) :
    (pktidExpireFloor pr now).id_floor = pr.id_floor ∨
      (pr.expire ≤ now ∧ (pktidExpireFloor pr now).id_floor = pr.id) := by
  unfold pktidExpireFloor; split
  · exact Or.inr ⟨by assumption, rfl⟩
  · exact Or.inl rfl

lemma pktidExpireFloor_id_floor_of_lt (pr : PktidRecv) (now : Nat) (h : now < pr.expire) :
    (pktidExpireFloor pr now).id_floor = pr.id_floor := by
  unfold pktidExpireFloor
  rw [if_neg (by omega)]

/-! ## Helper lemmas: the max-backtrack tweak touches only `max_backtrack` -/

@[simp] lemma pktidMaxBacktrack_base (pr : PktidRecv) (delta : Nat) :
    (pktidMaxBacktrack pr delta).base = pr.base := by
  unfold pktidMaxBacktrack; split <;> rfl

@[simp] lemma pktidMaxBacktrack_extent (pr : PktidRecv) (delta : Nat) :
    (pktidMaxBacktrack pr delta).extent = pr.extent := by
  unfold pktidMaxBacktrack; split <;> rfl

@[simp] lemma pktidMaxBacktrack_history (pr : PktidRecv) (delta : Nat) :
    (pktidMaxBacktrack pr delta).history = pr.history := by
  unfold pktidMaxBacktrack; split <;> rfl

@[simp] lemma pktidMaxBacktrack_id (pr : PktidRecv) (delta : Nat) :
    (pktidMaxBacktrack pr delta).id = pr.id := by
  unfold pktidMaxBacktrack; split <;> rfl

@[simp] lemma pktidMaxBacktrack_id_floor (pr : PktidRecv) (delta : Nat) :
    (pktidMaxBacktrack pr delta).id_floor = pr.id_floor := by
  unfold pktidMaxBacktrack; split <;> rfl

@[simp] lemma pktidMaxBacktrack_time (pr : PktidRecv) (delta : Nat) :
    (pktidMaxBacktrack pr delta).time = pr.time := by
  unfold pktidMaxBacktrack; split <;> rfl

@[simp] lemma pktidMaxBacktrack_expire (pr : PktidRecv) (delta : Nat) :
    (pktidMaxBacktrack pr delta).expire = pr.expire := by
  unfold pktidMaxBacktrack; split <;> rfl

lemma pktidMaxBacktrack_max_or (pr : PktidRecv) (delta : Nat) :
    (pktidMaxBacktrack pr delta).max_backtrack = pr.max_backtrack ∨
      (pr.max_backtrack < delta ∧
        (pktidMaxBacktrack pr delta).max_backtrack = delta) := by
  unfold pktidMaxBacktrack; split
  · exact Or.inr ⟨by assumption, rfl⟩
  · exact Or.inl rfl

/-! ## Helper lemmas: ring-index arithmetic -/

lemma replayIndex_nonneg_emod (W base : Nat) (i : Int) (hW : 0 < W) :
    (0 : Int) ≤ ((base : Int) + i) % (W : Int) := by
  apply Int.emod_nonneg
  exact_mod_cast Nat.pos_iff_ne_zero.mp hW

lemma replayIndex_lt (W base : Nat) (i : Int) (hW : 0 < W) :
    replayIndex W base i < W := by
  unfold replayIndex
  have hWi : (0 : Int) < (W : Int) := by exact_mod_cast hW
  have h1 : ((base : Int) + i) % (W : Int) < W := Int.emod_lt_of_pos _ hWi
  have h2 := replayIndex_nonneg_emod W base i hW
  omega

lemma replayIndex_cast (W base : Nat) (i : Int) (hW : 0 < W) :
    ((replayIndex W base i : Nat) : Int) = ((base : Int) + i) % (W : Int) := by
  unfold replayIndex
  exact Int.toNat_of_nonneg (replayIndex_nonneg_emod W base i hW)

lemma replayIndex_replayIndex (W base : Nat) (i j : Int) (hW : 0 < W) :
    replayIndex W (replayIndex W base i) j = replayIndex W base (i + j) := by
  have h0 : ((replayIndex W base i : Nat) : Int) = ((base : Int) + i) % (W : Int) :=
    replayIndex_cast W base i hW
  show ((((replayIndex W base i : Nat) : Int) + j) % (W : Int)).toNat =
    replayIndex W base (i + j)
  rw [h0]
  show ((((base : Int) + i) % (W : Int) + j) % (W : Int)).toNat =
    (((base : Int) + (i + j)) % (W : Int)).toNat
  congr 1
  calc (((base : Int) + i) % (W : Int) + j) % (W : Int)
      = ((((base : Int) + i) % W) % W + j % W) % W := by
        conv_lhs => rw [Int.add_emod]
    _ = (((base : Int) + i) % W + j % W) % W := by
        rw [Int.emod_emod_of_dvd _ dvd_rfl]
    _ = (((base : Int) + i) + j) % W := by rw [← Int.add_emod]
    _ = ((base : Int) + (i + j)) % W := by ring_nf

lemma replayIndex_eq_iff (W base : Nat) (i j : Int) (hW : 0 < W) :
    replayIndex W base i = replayIndex W base j ↔ (W : Int) ∣ (i - j) := by
  have hi := replayIndex_cast W base i hW
  have hj := replayIndex_cast W base j hW
  constructor
  · intro h
    have h2 : ((base : Int) + i) % W = ((base : Int) + j) % W := by
      rw [← hi, ← hj, h]
    have h3 := Int.emod_eq_emod_iff_emod_sub_eq_zero.mp h2
    rw [show ((base : Int) + i) - ((base : Int) + j) = i - j by ring] at h3
    exact Int.dvd_of_emod_eq_zero h3
  · intro h
    unfold replayIndex
    congr 1
    apply Int.emod_eq_emod_iff_emod_sub_eq_zero.mpr
    rw [show ((base : Int) + i) - ((base : Int) + j) = i - j by ring]
    exact Int.emod_eq_zero_of_dvd h

lemma replayIndex_inj (W base : Nat) (d1 d2 : Nat) (hW : 0 < W)
    (h1 : d1 < W) (h2 : d2 < W)
    (h : replayIndex W base (d1 : Int) = replayIndex W base (d2 : Int)) :
    d1 = d2 := by
  have hd := (replayIndex_eq_iff W base (d1 : Int) (d2 : Int) hW).mp h
  have := Int.eq_zero_of_dvd_of_natAbs_lt_natAbs hd (by omega)
  omega

lemma replayIndex_ofNat (W base d : Nat) :
    replayIndex W base (d : Int) = (base + d) % W := by
  unfold replayIndex
  rw [show ((base : Int) + (d : Int)) = ((base + d : Nat) : Int) by push_cast; ring]
  rw [show (((base + d : Nat) : Int) % (W : Int)) = (((base + d) % W : Nat) : Int) from rfl]
  exact Int.toNat_natCast _

/-- Membership in the bit-clearing fold of the forward-jump branch. -/
lemma mem_foldl_erase (f : Nat → Nat) (l : List Nat) (h0 : Finset Nat) (x : Nat) :
    x ∈ l.foldl (fun h i => h.erase (f i)) h0 ↔ x ∈ h0 ∧ ∀ i ∈ l, x ≠ f i := by
  induction l generalizing h0 with
  | nil => simp
  | cons a l ih =>
    simp only [List.foldl_cons, ih, Finset.mem_erase, List.mem_cons]
    constructor
    · rintro ⟨⟨hne, hx⟩, hall⟩
      exact ⟨hx, fun i hi => hi.elim (fun h => h ▸ hne) (hall i)⟩
    · rintro ⟨hx, hall⟩
      exact ⟨⟨hall a (Or.inl rfl), hx⟩, fun i hi => hall i (Or.inr hi)⟩

lemma mem_range_drop_one (delta i : Nat) :
    i ∈ (List.range delta).drop 1 ↔ 1 ≤ i ∧ i < delta := by
  simp [List.range_eq_range']
  omega


lemma compareId_forward (W : Nat) (q : PktidRecv) (pkt_id now : Nat)
    (h : q.id < pkt_id) :
    (pktidRecvCompareId W q pkt_id now).2 = none ∧
    (pktidRecvCompareId W q pkt_id now).1.id = pkt_id ∧
    (pktidRecvCompareId W q pkt_id now).1.time = q.time := by
  simp only [pktidRecvCompareId]
  split_ifs <;> simp_all

lemma compareId_reject (W : Nat) (q : PktidRecv) (pkt_id now : Nat) (e : PktidErr)
    (h : (pktidRecvCompareId W q pkt_id now).2 = some e) :
    (pktidRecvCompareId W q pkt_id now).1.base = q.base ∧
    (pktidRecvCompareId W q pkt_id now).1.extent = q.extent ∧
    (pktidRecvCompareId W q pkt_id now).1.history = q.history ∧
    (pktidRecvCompareId W q pkt_id now).1.id = q.id ∧
    (pktidRecvCompareId W q pkt_id now).1.id_floor = q.id_floor ∧
    (pktidRecvCompareId W q pkt_id now).1.time = q.time ∧
    (pktidRecvCompareId W q pkt_id now).1.expire = q.expire ∧
    ((pktidRecvCompareId W q pkt_id now).1.max_backtrack = q.max_backtrack ∨
      (pkt_id < q.id ∧
        (pktidRecvCompareId W q pkt_id now).1.max_backtrack = q.id - pkt_id)) := by
  simp only [pktidRecvCompareId] at h ⊢
  have hmax := pktidMaxBacktrack_max_or q (q.id - pkt_id)
  by_cases h2 : q.id < pkt_id
  · split_ifs at h
  · split_ifs at h ⊢ <;>
      first
        | exact ((by simpa using h : False).elim)
        | (refine ⟨by simp, by simp, by simp, by simp, by simp, by simp, by simp, ?_⟩
           rcases hmax with hm | ⟨hlt, hm⟩
           · exact Or.inl (by simpa using hm)
           · exact Or.inr ⟨by omega, by simpa using hm⟩)

lemma compareId_idBacktrack (W : Nat) (q : PktidRecv) (pkt_id now : Nat)
    (hext : q.extent ≤ W) (hid : q.id < U32) (hz : pkt_id ≠ 0)
    (hback : pkt_id + W ≤ q.id) :
    (pktidRecvCompareId W q pkt_id now).2 = some PktidErr.idBacktrack := by
  simp only [pktidRecvCompareId, U32] at *
  split_ifs <;> simp_all <;> omega

/-- Claim C2: for every incoming packet id with `pkt_id < id - W + 1`
(backtrack delta at least `W`), presented at the current epoch with
`pkt_id ≠ 0`, `__ovpn_pktid_recv` rejects with the ID-BACKTRACK error,
regardless of the history bitmap contents, `id_floor`, or expiry state
(the only state hypotheses are the `__u32` range of `id` and the
`extent ≤ W` invariant). -/
theorem C2_out_of_window_reject (W : Nat) (pr : PktidRecv) (pkt_id pkt_time now : Nat)
    (hext : pr.extent ≤ W) (hid : pr.id < U32) (hz : pkt_id ≠ 0)
    (hback : pkt_id + W ≤ pr.id) (ht : pkt_time = pr.time) :
    (__ovpn_pktid_recv W pr pkt_id pkt_time now).2 = some PktidErr.idBacktrack := by
  show (pktidRecvCheck W (pktidExpireFloor pr now) pkt_id pkt_time now).2 = _
  simp only [pktidRecvCheck]
  rw [if_neg hz, if_neg (by simp [ht])]
  exact compareId_idBacktrack W _ pkt_id now (by simpa using hext) (by simpa using hid)
    hz (by simpa using hback)

theorem C2_witness :
    (__ovpn_pktid_recv 64 (⟨5, 64, {1, 2, 3}, 200, 0, 0, 1000, 9⟩ : PktidRecv)
        100 1000 0).2 = some PktidErr.idBacktrack :=
  C2_out_of_window_reject 64 _ 100 1000 0 (by decide) (by decide) (by decide)
    (by decide) (by decide)

/-- Claim C3: presenting `(pkt_id ≥ 1, pkt_epoch)` with `pkt_epoch`
strictly greater than the stored epoch resets the window state
(`base = 0, extent = 0, id = 0, id_floor = 0`, epoch set to `pkt_epoch`)
and then accepts the packet — the call equals the call on the explicitly
reset state, accepts, and leaves the epoch at `pkt_epoch`; presenting
`pkt_epoch` strictly less than the stored epoch (with `pkt_id ≠ 0`)
rejects with the EPOCH-BACKTRACK (time-backtrack) error and does not
reset the window (only the expire-floor tweak may run). -/
theorem C3_epoch_reset (W : Nat) (pr : PktidRecv) (pkt_id pkt_epoch now : Nat) :
    (1 ≤ pkt_id → pr.time < pkt_epoch →
      (__ovpn_pktid_recv W pr pkt_id pkt_epoch now).2 = none ∧
      (__ovpn_pktid_recv W pr pkt_id pkt_epoch now).1.time = pkt_epoch ∧
      __ovpn_pktid_recv W pr pkt_id pkt_epoch now =
        __ovpn_pktid_recv W (pktidResetState pr pkt_epoch) pkt_id pkt_epoch now) ∧
    (pkt_id ≠ 0 → pkt_epoch < pr.time →
      __ovpn_pktid_recv W pr pkt_id pkt_epoch now =
        (pktidExpireFloor pr now, some PktidErr.timeBacktrack)) := by
  constructor
  · intro hp ht
    have hz : pkt_id ≠ 0 := by omega
    have hL : __ovpn_pktid_recv W pr pkt_id pkt_epoch now =
        pktidRecvCompareId W (pktidResetState pr pkt_epoch) pkt_id now := by
      show pktidRecvCheck W (pktidExpireFloor pr now) pkt_id pkt_epoch now = _
      simp only [pktidRecvCheck]
      rw [if_neg hz, if_pos (by simp; omega), if_pos (by simp [ht])]
      congr 1
      unfold pktidExpireFloor pktidResetState
      split <;> rfl
    have hR : __ovpn_pktid_recv W (pktidResetState pr pkt_epoch) pkt_id pkt_epoch now =
        pktidRecvCompareId W (pktidResetState pr pkt_epoch) pkt_id now := by
      show pktidRecvCheck W (pktidExpireFloor (pktidResetState pr pkt_epoch) now)
        pkt_id pkt_epoch now = _
      have hfix : pktidExpireFloor (pktidResetState pr pkt_epoch) now =
          pktidResetState pr pkt_epoch := by
        unfold pktidExpireFloor pktidResetState
        split <;> rfl
      rw [hfix]
      simp only [pktidRecvCheck]
      rw [if_neg hz, if_neg (by unfold pktidResetState; simp)]
    have hacc := compareId_forward W (pktidResetState pr pkt_epoch) pkt_id now
      (by unfold pktidResetState; simpa using hp)
    refine ⟨by rw [hL]; exact hacc.1, ?_, by rw [hL, hR]⟩
    rw [hL]
    rw [hacc.2.2]
    unfold pktidResetState
    rfl
  · intro hz ht
    show pktidRecvCheck W (pktidExpireFloor pr now) pkt_id pkt_epoch now = _
    simp only [pktidRecvCheck]
    rw [if_neg hz, if_pos (by simp; omega), if_neg (by simp; omega)]

theorem C3_witness :
    (__ovpn_pktid_recv 64 (⟨7, 64, {0, 1}, 500, 3, 2, 1000, 9⟩ : PktidRecv) 1 1001 5).2 =
      none ∧
    (__ovpn_pktid_recv 64 (⟨7, 64, {0, 1}, 500, 3, 2, 1000, 9⟩ : PktidRecv)
        1 1001 5).1.time = 1001 ∧
    (__ovpn_pktid_recv 64 (⟨7, 64, {0, 1}, 500, 3, 2, 1000, 9⟩ : PktidRecv) 7 999 5).2 =
      some PktidErr.timeBacktrack := by
  have h1 := (C3_epoch_reset 64 (⟨7, 64, {0, 1}, 500, 3, 2, 1000, 9⟩ : PktidRecv) 1 1001 5).1
    (by decide) (by decide)
  have h2 := (C3_epoch_reset 64 (⟨7, 64, {0, 1}, 500, 3, 2, 1000, 9⟩ : PktidRecv) 7 999 5).2
    (by decide) (by decide)
  exact ⟨h1.1, h1.2.1, by rw [h2]⟩

/-- Claim C9: whenever `__ovpn_pktid_recv` rejects a packet, the core
window state `{base, extent, id, history, time, expire}` is unchanged;
rejection is not fully state-free: `id_floor` may still be raised to the
current `id` when the expiry deadline has passed, and `max_backtrack`
may still grow to the rejected id's backtrack delta. -/
theorem C9_reject_frame (W : Nat) (pr : PktidRecv) (pkt_id pkt_time now : Nat)
    (e : PktidErr) (h : (__ovpn_pktid_recv W pr pkt_id pkt_time now).2 = some e) :
    (__ovpn_pktid_recv W pr pkt_id pkt_time now).1.base = pr.base ∧
    (__ovpn_pktid_recv W pr pkt_id pkt_time now).1.extent = pr.extent ∧
    (__ovpn_pktid_recv W pr pkt_id pkt_time now).1.history = pr.history ∧
    (__ovpn_pktid_recv W pr pkt_id pkt_time now).1.id = pr.id ∧
    (__ovpn_pktid_recv W pr pkt_id pkt_time now).1.time = pr.time ∧
    (__ovpn_pktid_recv W pr pkt_id pkt_time now).1.expire = pr.expire ∧
    ((__ovpn_pktid_recv W pr pkt_id pkt_time now).1.id_floor = pr.id_floor ∨
      (pr.expire ≤ now ∧
        (__ovpn_pktid_recv W pr pkt_id pkt_time now).1.id_floor = pr.id)) ∧
    ((__ovpn_pktid_recv W pr pkt_id pkt_time now).1.max_backtrack = pr.max_backtrack ∨
      (pkt_id < pr.id ∧
        (__ovpn_pktid_recv W pr pkt_id pkt_time now).1.max_backtrack = pr.id - pkt_id)) := by
  have hfl := pktidExpireFloor_id_floor pr now
  rw [show __ovpn_pktid_recv W pr pkt_id pkt_time now =
    pktidRecvCheck W (pktidExpireFloor pr now) pkt_id pkt_time now from rfl] at h ⊢
  simp only [pktidRecvCheck] at h ⊢
  split_ifs at h ⊢ with h1 h2 h3
  · -- zero id
    refine ⟨by simp, by simp, by simp, by simp, by simp, by simp, ?_, by simp⟩
    simpa using hfl
  · -- epoch moved forward: always accepted, contradiction
    have hacc := compareId_forward W { pktidExpireFloor pr now with base := 0, extent := 0, id := 0, time := pkt_time, id_floor := 0 } pkt_id now (by show (0:Nat) < pkt_id; omega)
    rw [h] at hacc
    simp at hacc
  · -- epoch moved backward
    refine ⟨by simp, by simp, by simp, by simp, by simp, by simp, ?_, by simp⟩
    simpa using hfl
  · -- same epoch, rejected in the id comparison
    obtain ⟨hb, he, hh, hi, hf, htm, hx, hm⟩ := compareId_reject W _ pkt_id now e h
    refine ⟨by rw [hb]; simp, by rw [he]; simp, by rw [hh]; simp, by rw [hi]; simp,
      by rw [htm]; simp, by rw [hx]; simp, ?_, ?_⟩
    · rw [hf]; simpa using hfl
    · rcases hm with hm | ⟨hlt, hm⟩
      · exact Or.inl (by rw [hm]; simp)
      · exact Or.inr ⟨by simpa using hlt, by rw [hm]; simp⟩

theorem C9_witness :
    (__ovpn_pktid_recv 64 (⟨2, 10, {2}, 50, 1, 0, 1000, 99⟩ : PktidRecv) 45 1000 100).2 =
      some PktidErr.expire ∧
    (__ovpn_pktid_recv 64 (⟨2, 10, {2}, 50, 1, 0, 1000, 99⟩ : PktidRecv) 45 1000 100).1 =
      (⟨2, 10, {2}, 50, 50, 5, 1000, 99⟩ : PktidRecv) := by
  have h := C9_reject_frame 64 (⟨2, 10, {2}, 50, 1, 0, 1000, 99⟩ : PktidRecv) 45 1000 100
    PktidErr.expire (by decide)
  refine ⟨by decide, ?_⟩
  have hb := h.1
  decide



lemma recv_forward (W : Nat) (pr : PktidRecv) (pkt_id pkt_time now : Nat)
    (h1 : pr.id < pkt_id) (h2 : pr.time ≤ pkt_time) :
    (__ovpn_pktid_recv W pr pkt_id pkt_time now).2 = none ∧
    (__ovpn_pktid_recv W pr pkt_id pkt_time now).1.id = pkt_id ∧
    (__ovpn_pktid_recv W pr pkt_id pkt_time now).1.time = pkt_time := by
  have hz : pkt_id ≠ 0 := by omega
  simp only [__ovpn_pktid_recv, pktidRecvCheck]
  rcases eq_or_ne pkt_time pr.time with heq | hne
  · rw [if_neg hz, if_neg (by simp [heq])]
    have h := compareId_forward W (pktidExpireFloor pr now) pkt_id now (by simpa using h1)
    exact ⟨h.1, h.2.1, by rw [h.2.2]; simp [heq]⟩
  · have hlt : pr.time < pkt_time := by omega
    rw [if_neg hz, if_pos (by simpa using hne), if_pos (by simpa using hlt)]
    have h := compareId_forward W { pktidExpireFloor pr now with base := 0, extent := 0, id := 0, time := pkt_time, id_floor := 0 } pkt_id now (by show (0:Nat) < pkt_id; omega)
    exact ⟨h.1, h.2.1, by rw [h.2.2]⟩

lemma pktidRecvRun_monotone (W pkt_time now : Nat) :
    ∀ (L : List Nat) (pr : PktidRecv), L.Chain' (· < ·) →
      (∀ x, L.head? = some x → pr.id < x) → pr.time ≤ pkt_time →
      (pktidRecvRun W pr pkt_time now L).2 = L.map (fun _ => none) := by
  intro L
  induction L with
  | nil => intro pr _ _ _; rfl
  | cons x L ih =>
    intro pr hchain hhead htime
    rw [List.chain'_cons'] at hchain
    have hfw := recv_forward W pr x pkt_time now (hhead x rfl) htime
    simp only [pktidRecvRun, List.map_cons]
    refine congrArg₂ _ hfw.1 ?_
    apply ih _ hchain.2
    · intro y hy
      rw [hfw.2.1]
      exact hchain.1 y hy
    · rw [hfw.2.2]

/-- Claim C4: for every strictly increasing sequence of packet ids with
first element at least 1, all presented at the same fixed epoch from the
freshly initialized state, `__ovpn_pktid_recv` accepts every id in the
sequence exactly once (each presentation returns success). -/
theorem C4_monotone_accept (W pkt_time now : Nat) (L : List Nat)
    (hchain : L.Chain' (· < ·)) (hfirst : ∀ x, L.head? = some x → 1 ≤ x) :
    (pktidRecvRun W ovpn_pktid_recv_init pkt_time now L).2 =
      L.map (fun _ => none) := by
  apply pktidRecvRun_monotone W pkt_time now L ovpn_pktid_recv_init hchain
  · intro x hx
    exact hfirst x hx
  · show (0 : Nat) ≤ pkt_time
    omega

theorem C4_witness :
    (pktidRecvRun 256 ovpn_pktid_recv_init 9 0 [1, 5, 6]).2 = [none, none, none] := by
  have h := C4_monotone_accept 256 9 0 [1, 5, 6]
    (by simp [List.chain'_cons', List.chain'_singleton])
    (by intro x hx; simp at hx; omega)
  simpa using h



lemma C1Inv_congr (W id0 t now b0 f0 : Nat) (P Q : Nat → Prop) (s : PktidRecv)
    (hpq : ∀ y, P y ↔ Q y) (h : C1Inv W id0 t now b0 f0 P s) :
    C1Inv W id0 t now b0 f0 Q s := by
  obtain ⟨hb, he, hi, hf, ht, hx, hbits⟩ := h
  exact ⟨hb, he, hi, hf, ht, hx, fun d hd => (hbits d hd).trans (hpq _)⟩

lemma mem_windowIds (id0 W j : Nat) :
    j ∈ windowIds id0 W ↔ ∃ d, d < W ∧ j = id0 - d := by
  unfold windowIds
  simp only [List.mem_map, List.mem_range]
  constructor
  · rintro ⟨d, hd, rfl⟩; exact ⟨d, hd, rfl⟩
  · rintro ⟨d, hd, rfl⟩; exact ⟨d, hd, rfl⟩

lemma windowIds_nodup (id0 W : Nat) (h : W ≤ id0) : (windowIds id0 W).Nodup := by
  unfold windowIds
  refine List.Nodup.map_on ?_ (List.nodup_range W)
  intro x hx y hy hxy
  rw [List.mem_range] at hx hy
  omega

/-- One step of the window-accept argument: with the window at full
extent, presenting the window id `id0 - d` accepts and marks it when it
was not yet presented, and rejects it as REPLAY when it was. -/
lemma C1_step (W id0 t now b0 f0 : Nat) (P : Nat → Prop) (s : PktidRecv) (d : Nat)
    (hW : 0 < W) (hWle : W ≤ id0) (hid : id0 < U32) (hfloor : f0 + W ≤ id0)
    (hinv : C1Inv W id0 t now b0 f0 P s) (hd : d < W) :
    (¬ P (id0 - d) →
      (__ovpn_pktid_recv W s (id0 - d) t now).2 = none ∧
      C1Inv W id0 t now b0 f0 (fun y => y = id0 - d ∨ P y)
        (__ovpn_pktid_recv W s (id0 - d) t now).1) ∧
    (P (id0 - d) →
      (__ovpn_pktid_recv W s (id0 - d) t now).2 = some PktidErr.replay ∧
      C1Inv W id0 t now b0 f0 P (__ovpn_pktid_recv W s (id0 - d) t now).1) := by
  obtain ⟨hb, he, hi, hf, ht, hx, hbits⟩ := hinv
  have hstep : __ovpn_pktid_recv W s (id0 - d) t now =
      pktidRecvCompareId W s (id0 - d) now := by
    show pktidRecvCheck W (pktidExpireFloor s now) (id0 - d) t now = _
    rw [show pktidExpireFloor s now = s by
      unfold pktidExpireFloor; rw [if_neg (by omega)]]
    simp only [pktidRecvCheck]
    rw [if_neg (by omega), if_neg (by simp [ht])]
  rw [hstep]
  simp only [pktidRecvCompareId]
  have hc1 : ¬ (id0 - d = (s.id + 1) % U32) := by
    rw [hi]
    simp only [U32] at hid ⊢
    omega
  have hc2 : ¬ (s.id < id0 - d) := by omega
  rw [if_neg hc1, if_neg hc2]
  have hdelta : s.id - (id0 - d) = d := by omega
  rw [hdelta]
  rw [if_pos (by simp only [pktidMaxBacktrack_extent, he]; omega)]
  rw [if_pos (by simp only [pktidMaxBacktrack_id_floor, hf]; omega)]
  have hri : replayIndex W (pktidMaxBacktrack s d).base ((d : Nat) : Int) =
      replayIndex W b0 (d : Int) := by rw [pktidMaxBacktrack_base, hb]
  rw [hri]
  constructor
  · intro hnp
    rw [if_neg (by
      simp only [pktidMaxBacktrack_history]
      exact fun hm => hnp ((hbits d hd).mp hm))]
    refine ⟨rfl, by simp [hb], by simp [he], by simp [hi], by simp [hf], by simp [ht],
      ?_, ?_⟩
    · show now < now + PKTID_RECV_EXPIRE
      simp only [PKTID_RECV_EXPIRE]
      omega
    · intro d' hd'
      show replayIndex W b0 (d' : Int) ∈
          insert (replayIndex W b0 (d : Int)) (pktidMaxBacktrack s d).history ↔
        (id0 - d' = id0 - d ∨ P (id0 - d'))
      rw [pktidMaxBacktrack_history, Finset.mem_insert]
      by_cases hdd : d' = d
      · subst hdd
        exact ⟨fun _ => Or.inl rfl, fun _ => Or.inl rfl⟩
      · have hne : replayIndex W b0 (d' : Int) ≠ replayIndex W b0 (d : Int) :=
          fun hcon => hdd (replayIndex_inj W b0 d' d hW hd' hd hcon)
        have hyne : id0 - d' ≠ id0 - d := by omega
        constructor
        · rintro (hcon | hm)
          · exact absurd hcon hne
          · exact Or.inr ((hbits d' hd').mp hm)
        · rintro (hcon | hp)
          · exact absurd hcon hyne
          · exact Or.inr ((hbits d' hd').mpr hp)
  · intro hp
    rw [if_pos (by
      simp only [pktidMaxBacktrack_history]
      exact (hbits d hd).mpr hp)]
    refine ⟨rfl, by simp [hb], by simp [he], by simp [hi], by simp [hf], by simp [ht],
      by simpa using hx, ?_⟩
    intro d' hd'
    show replayIndex W b0 (d' : Int) ∈ (pktidMaxBacktrack s d).history ↔ P (id0 - d')
    rw [pktidMaxBacktrack_history]
    exact hbits d' hd'

lemma C1_run (W id0 t now b0 f0 : Nat) (hW : 0 < W) (hWle : W ≤ id0)
    (hid : id0 < U32) (hfloor : f0 + W ≤ id0) :
    ∀ (L : List Nat) (P : Nat → Prop) (s : PktidRecv),
      C1Inv W id0 t now b0 f0 P s →
      (∀ j ∈ L, j ∈ windowIds id0 W) → (∀ j ∈ L, ¬ P j) → L.Nodup →
      (pktidRecvRun W s t now L).2 = L.map (fun _ => none) ∧
      C1Inv W id0 t now b0 f0 (fun y => y ∈ L ∨ P y)
        (pktidRecvRun W s t now L).1 := by
  intro L
  induction L with
  | nil =>
    intro P s hinv _ _ _
    exact ⟨rfl, C1Inv_congr _ _ _ _ _ _ _ _ _ (fun y => by simp) hinv⟩
  | cons x L ih =>
    intro P s hinv hwin hnp hnd
    obtain ⟨d, hd, hx⟩ := (mem_windowIds id0 W x).mp (hwin x (List.mem_cons_self x L))
    subst hx
    have hstep := (C1_step W id0 t now b0 f0 P s d hW hWle hid hfloor hinv hd).1
      (hnp _ (List.mem_cons_self _ _))
    rw [List.nodup_cons] at hnd
    simp only [pktidRecvRun, List.map_cons]
    have hih := ih (fun y => y = id0 - d ∨ P y)
      (__ovpn_pktid_recv W s (id0 - d) t now).1 hstep.2
      (fun j hj => hwin j (List.mem_cons_of_mem _ hj))
      (fun j hj => by
        rintro (rfl | hpj)
        · exact hnd.1 hj
        · exact hnp j (List.mem_cons_of_mem _ hj) hpj)
      hnd.2
    refine ⟨congrArg₂ _ hstep.1 hih.1, ?_⟩
    refine C1Inv_congr _ _ _ _ _ _ _ _ _ (fun y => ?_) hih.2
    simp only [List.mem_cons]
    tauto

/-- Claim C1 (amended): starting from a state with top id `id0`, full
extent `W`, every ring bit clear (no window id marked yet), all window
ids above `id_floor` and the window not expired, presenting any
permutation of `{id0 - W + 1, …, id0}` accepts each id exactly once, and
presenting any of those ids a second time (after any prefix of the
permutation that contains it) is rejected with the REPLAY error. -/
theorem C1_window_accept (W id0 t now : Nat) (s : PktidRecv) (L : List Nat)
    (hW : 0 < W) (hWle : W ≤ id0) (hid : id0 < U32)
    (hsid : s.id = id0) (hsext : s.extent = W) (hstime : s.time = t)
    (hfloor : s.id_floor + W ≤ id0) (hexp : now < s.expire)
    (hclean : ∀ d, d < W → replayIndex W s.base (d : Int) ∉ s.history)
    (hperm : L.Perm (windowIds id0 W)) :
    (pktidRecvRun W s t now L).2 = L.map (fun _ => none) ∧
    (∀ L1 L2, L = L1 ++ L2 → ∀ j ∈ L1,
      (__ovpn_pktid_recv W (pktidRecvRun W s t now L1).1 j t now).2 =
        some PktidErr.replay) := by
  have hInv0 : C1Inv W id0 t now s.base s.id_floor (fun _ => False) s :=
    ⟨rfl, hsext, hsid, rfl, hstime, hexp,
      fun d hd => ⟨fun hm => absurd hm (hclean d hd), False.elim⟩⟩
  have hnodW : (windowIds id0 W).Nodup := windowIds_nodup id0 W hWle
  have hnodL : L.Nodup := hperm.symm.nodup hnodW
  constructor
  · exact (C1_run W id0 t now s.base s.id_floor hW hWle hid hfloor L
      (fun _ => False) s hInv0 (fun j hj => hperm.subset hj)
      (fun j _ => not_false) hnodL).1
  · rintro L1 L2 rfl j hj
    have hsub1 : ∀ x ∈ L1, x ∈ windowIds id0 W :=
      fun x hx => hperm.subset (List.mem_append_left L2 hx)
    have hnod1 : L1.Nodup := (List.nodup_append.mp hnodL).1
    have hrun := C1_run W id0 t now s.base s.id_floor hW hWle hid hfloor L1
      (fun _ => False) s hInv0 hsub1 (fun j _ => not_false) hnod1
    obtain ⟨d, hd, rfl⟩ := (mem_windowIds id0 W j).mp (hsub1 j hj)
    exact ((C1_step W id0 t now s.base s.id_floor (fun y => y ∈ L1 ∨ False)
      (pktidRecvRun W s t now L1).1 d hW hWle hid hfloor hrun.2 hd).2
      (Or.inl hj)).1

/-- Claim C1, counterexample to the claim as stated: the state reached
from the fresh detector by accepting `(pkt_id = 256, epoch 5)` at
`W = 256` has top id 256, `id_floor = 0` (so every id of the window set
`{1, …, 256}` is above the floor) and an unexpired window — it satisfies
every admissibility premise of the claim — yet presenting 256, the first
element of a permutation of `{1, …, 256}`, is rejected as REPLAY on its
first presentation rather than accepted: the bit of the top id is set in
every reachable state, so a permutation of the full window cannot be
accepted from a state whose top id already belongs to that window. -/
theorem C1_counterexample :
    ((__ovpn_pktid_recv 256 ovpn_pktid_recv_init 256 5 0).1.id = 256 ∧
      (__ovpn_pktid_recv 256 ovpn_pktid_recv_init 256 5 0).1.extent = 256 ∧
      (__ovpn_pktid_recv 256 ovpn_pktid_recv_init 256 5 0).1.id_floor = 0 ∧
      0 < (__ovpn_pktid_recv 256 ovpn_pktid_recv_init 256 5 0).1.expire) ∧
    (__ovpn_pktid_recv 256 (__ovpn_pktid_recv 256 ovpn_pktid_recv_init 256 5 0).1
        256 5 0).2 = some PktidErr.replay := by
  decide

theorem C1_witness :
    (pktidRecvRun 2 (⟨3, 2, ∅, 10, 6, 0, 9, 1⟩ : PktidRecv) 9 0 [9, 10]).2 =
      [none, none] ∧
    (__ovpn_pktid_recv 2
        (pktidRecvRun 2 (⟨3, 2, ∅, 10, 6, 0, 9, 1⟩ : PktidRecv) 9 0 [9, 10]).1
        9 9 0).2 = some PktidErr.replay := by
  have h := C1_window_accept 2 10 9 0 (⟨3, 2, ∅, 10, 6, 0, 9, 1⟩ : PktidRecv) [9, 10]
    (by decide) (by decide) (by decide) (by decide) (by decide) (by decide)
    (by decide) (by decide) (by decide) (by decide)
  exact ⟨by simpa using h.1, h.2 [9, 10] [] rfl 9 (by decide)⟩



lemma PktidWindowInv_mono (W : Nat) (A B : Nat → Nat → Prop) (s : PktidRecv)
    (h : ∀ t y, A t y → B t y) (hinv : PktidWindowInv W A s) :
    PktidWindowInv W B s := by
  obtain ⟨h1, h2, h3⟩ := hinv
  exact ⟨h1, h2, fun d hd hm => ⟨(h3 d hd hm).1, h _ _ (h3 d hd hm).2⟩⟩

lemma PktidWindowInv_congr_fields (W : Nat) (A : Nat → Nat → Prop)
    (s' s : PktidRecv) (hb : s'.base = s.base) (he : s'.extent = s.extent)
    (hh : s'.history = s.history) (hi : s'.id = s.id) (ht : s'.time = s.time)
    (h : PktidWindowInv W A s) : PktidWindowInv W A s' := by
  obtain ⟨h1, h2, h3⟩ := h
  refine ⟨by rw [he]; exact h1, by rw [hi]; exact h2, ?_⟩
  intro d hd hm
  rw [he] at hd
  rw [hb, hh] at hm
  rw [hi, ht]
  exact h3 d hd hm

lemma C5_compareId (W : Nat) (hW : 0 < W) (q : PktidRecv) (A : Nat → Nat → Prop)
    (i n : Nat) (hinv : PktidWindowInv W A q) (hi : i < U32) (hz : i ≠ 0) :
    PktidWindowInv W
      (fun t' y =>
        ((pktidRecvCompareId W q i n).2 = none ∧ t' = q.time ∧ y = i) ∨ A t' y)
      (pktidRecvCompareId W q i n).1 := by
  obtain ⟨hext, hidU, hbits⟩ := hinv
  simp only [pktidRecvCompareId]
  by_cases h1 : i = (q.id + 1) % U32
  · rw [if_pos h1]
    have hii : i = q.id + 1 := by
      simp only [U32] at h1 hidU hi ⊢
      omega
    refine ⟨?_, ?_, ?_⟩
    · show (if q.extent < W then q.extent + 1 else q.extent) ≤ W
      split <;> omega
    · show i < U32
      exact hi
    · intro d hd hm
      have hd' : d < (if q.extent < W then q.extent + 1 else q.extent) := hd
      have hdW : d < W := by
        by_cases hc : q.extent < W <;> simp only [if_pos, if_neg, hc, ite_true,
          ite_false] at hd' <;> omega
      have hm' : replayIndex W (replayIndex W q.base (-1)) (d : Int) ∈
          insert (replayIndex W q.base (-1)) q.history := hm
      show d < i ∧ (((none : Option PktidErr) = none ∧ q.time = q.time ∧ i - d = i) ∨
        A q.time (i - d))
      rcases Nat.eq_zero_or_pos d with rfl | hd0
      · exact ⟨by omega, Or.inl ⟨rfl, rfl, by omega⟩⟩
      · have hcomp : replayIndex W (replayIndex W q.base (-1)) (d : Int) =
            replayIndex W q.base ((d - 1 : Nat) : Int) := by
          rw [replayIndex_replayIndex W q.base (-1) (d : Int) hW]
          congr 1
          omega
        rcases Finset.mem_insert.mp hm' with heq | hmem
        · exfalso
          rw [hcomp] at heq
          have hdvd := (replayIndex_eq_iff W q.base ((d - 1 : Nat) : Int) (-1) hW).mp heq
          rw [show ((d - 1 : Nat) : Int) - (-1) = ((d : Nat) : Int) by omega] at hdvd
          have := Int.eq_zero_of_dvd_of_natAbs_lt_natAbs hdvd (by omega)
          omega
        · rw [hcomp] at hmem
          have hde : (d - 1 : Nat) < q.extent := by
            by_cases hc : q.extent < W <;> simp only [if_pos, if_neg, hc, ite_true,
              ite_false] at hd' <;> omega
          obtain ⟨hdq, hA⟩ := hbits (d - 1) hde hmem
          refine ⟨by omega, Or.inr ?_⟩
          rw [show i - d = q.id - (d - 1) by omega]
          exact hA
  · rw [if_neg h1]
    by_cases h2 : q.id < i
    · rw [if_pos h2]
      by_cases h3 : i - q.id < W
      · rw [if_pos h3]
        -- forward jump within the window
        refine ⟨?_, ?_, ?_⟩
        · show min (q.extent + (i - q.id)) W ≤ W
          exact Nat.min_le_right _ _
        · show i < U32
          exact hi
        · intro d hd hm
          have hd' : d < min (q.extent + (i - q.id)) W := hd
          have hdW : d < W := lt_of_lt_of_le hd' (Nat.min_le_right _ _)
          have hm' : replayIndex W (replayIndex W q.base (-((i - q.id : Nat) : Int)))
                (d : Int) ∈
              ((List.range (i - q.id)).drop 1).foldl
                (fun h k => h.erase
                  (replayIndex W (replayIndex W q.base (-((i - q.id : Nat) : Int)))
                    (k : Int)))
                (insert (replayIndex W q.base (-((i - q.id : Nat) : Int)))
                  q.history) := hm
          rw [mem_foldl_erase] at hm'
          obtain ⟨hm0, hnk⟩ := hm'
          show d < i ∧
            (((none : Option PktidErr) = none ∧ q.time = q.time ∧ i - d = i) ∨
              A q.time (i - d))
          rcases Nat.eq_zero_or_pos d with rfl | hd0
          · exact ⟨by omega, Or.inl ⟨rfl, rfl, by omega⟩⟩
          · by_cases hdd : d < i - q.id
            · exact absurd rfl
                (hnk d ((mem_range_drop_one (i - q.id) d).mpr ⟨hd0, hdd⟩))
            · push_neg at hdd
              have hcomp : replayIndex W
                    (replayIndex W q.base (-((i - q.id : Nat) : Int))) (d : Int) =
                  replayIndex W q.base ((d - (i - q.id) : Nat) : Int) := by
                rw [replayIndex_replayIndex W q.base _ _ hW]
                congr 1
                omega
              rcases Finset.mem_insert.mp hm0 with heq | hmem
              · exfalso
                rw [hcomp] at heq
                have hdvd := (replayIndex_eq_iff W q.base _ _ hW).mp heq
                rw [show ((d - (i - q.id) : Nat) : Int) - (-((i - q.id : Nat) : Int)) =
                    ((d : Nat) : Int) by omega] at hdvd
                have := Int.eq_zero_of_dvd_of_natAbs_lt_natAbs hdvd (by omega)
                omega
              · rw [hcomp] at hmem
                have hde : (d - (i - q.id) : Nat) < q.extent := by
                  have := Nat.lt_min.mp hd'
                  omega
                obtain ⟨hdq, hA⟩ := hbits _ hde hmem
                refine ⟨by omega, Or.inr ?_⟩
                rw [show i - d = q.id - (d - (i - q.id)) by omega]
                exact hA
      · rw [if_neg h3]
        -- forward jump beyond the window: full reset
        refine ⟨?_, ?_, ?_⟩
        · show W ≤ W
          exact le_refl W
        · show i < U32
          exact hi
        · intro d hd hm
          have hd' : d < W := hd
          have hm' : replayIndex W 0 (d : Int) ∈ ({0} : Finset Nat) := hm
          rw [show replayIndex W 0 (d : Int) = d by
            rw [replayIndex_ofNat]
            simp [Nat.mod_eq_of_lt hd'], Finset.mem_singleton] at hm'
          show d < i ∧
            (((none : Option PktidErr) = none ∧ q.time = q.time ∧ i - d = i) ∨
              A q.time (i - d))
          subst hm'
          exact ⟨by omega, Or.inl ⟨rfl, rfl, by omega⟩⟩
    · rw [if_neg h2]
      -- backtrack
      by_cases h4 : q.id - i < (pktidMaxBacktrack q (q.id - i)).extent
      · rw [if_pos h4]
        by_cases h5 : (pktidMaxBacktrack q (q.id - i)).id_floor < i
        · rw [if_pos h5]
          by_cases h6 : replayIndex W (pktidMaxBacktrack q (q.id - i)).base
              ((q.id - i : Nat) : Int) ∈ (pktidMaxBacktrack q (q.id - i)).history
          · rw [if_pos h6]
            -- replay reject: the core window state is untouched
            refine PktidWindowInv_congr_fields W _ (pktidMaxBacktrack q (q.id - i)) q
              (by simp) (by simp) (by simp) (by simp) (by simp)
              ⟨hext, hidU, fun d hd hm =>
                ⟨(hbits d hd hm).1, Or.inr (hbits d hd hm).2⟩⟩
          · rw [if_neg h6]
            -- backtracked id inside the window, not yet seen: accept and mark
            refine ⟨?_, ?_, ?_⟩
            · show (pktidMaxBacktrack q (q.id - i)).extent ≤ W
              rw [pktidMaxBacktrack_extent]
              exact hext
            · show (pktidMaxBacktrack q (q.id - i)).id < U32
              rw [pktidMaxBacktrack_id]
              exact hidU
            · intro d hd hm
              have hd' : d < (pktidMaxBacktrack q (q.id - i)).extent := hd
              rw [pktidMaxBacktrack_extent] at hd'
              have hm' : replayIndex W (pktidMaxBacktrack q (q.id - i)).base
                    (d : Int) ∈
                  insert (replayIndex W (pktidMaxBacktrack q (q.id - i)).base
                      ((q.id - i : Nat) : Int))
                    (pktidMaxBacktrack q (q.id - i)).history := hm
              rw [pktidMaxBacktrack_base, pktidMaxBacktrack_history] at hm'
              show d < (pktidMaxBacktrack q (q.id - i)).id ∧
                (((none : Option PktidErr) = none ∧
                    (pktidMaxBacktrack q (q.id - i)).time = q.time ∧
                    (pktidMaxBacktrack q (q.id - i)).id - d = i) ∨
                  A ((pktidMaxBacktrack q (q.id - i)).time)
                    ((pktidMaxBacktrack q (q.id - i)).id - d))
              rw [pktidMaxBacktrack_id, pktidMaxBacktrack_time]
              have h4' : q.id - i < q.extent := by
                have := h4
                rw [pktidMaxBacktrack_extent] at this
                exact this
              rcases Finset.mem_insert.mp hm' with heq | hmem
              · have hdelta : d = q.id - i :=
                  replayIndex_inj W q.base d (q.id - i) hW
                    (by omega) (by omega) heq
                subst hdelta
                exact ⟨by omega, Or.inl ⟨rfl, rfl, by omega⟩⟩
              · obtain ⟨hdq, hA⟩ := hbits d hd' hmem
                exact ⟨hdq, Or.inr hA⟩
        · rw [if_neg h5]
          -- floor reject
          refine PktidWindowInv_congr_fields W _ (pktidMaxBacktrack q (q.id - i)) q
            (by simp) (by simp) (by simp) (by simp) (by simp)
            ⟨hext, hidU, fun d hd hm =>
              ⟨(hbits d hd hm).1, Or.inr (hbits d hd hm).2⟩⟩
      · rw [if_neg h4]
        -- too-old reject
        refine PktidWindowInv_congr_fields W _ (pktidMaxBacktrack q (q.id - i)) q
          (by simp) (by simp) (by simp) (by simp) (by simp)
          ⟨hext, hidU, fun d hd hm =>
            ⟨(hbits d hd hm).1, Or.inr (hbits d hd hm).2⟩⟩


lemma C5_step (W : Nat) (hW : 0 < W) (s : PktidRecv) (A : Nat → Nat → Prop)
    (i t n : Nat) (hinv : PktidWindowInv W A s) (hi : i < U32) :
    PktidWindowInv W
      (fun t' y =>
        ((__ovpn_pktid_recv W s i t n).2 = none ∧ t' = t ∧ y = i) ∨ A t' y)
      (__ovpn_pktid_recv W s i t n).1 := by
  have hq : PktidWindowInv W A (pktidExpireFloor s n) :=
    PktidWindowInv_congr_fields W A _ s (by simp) (by simp) (by simp) (by simp)
      (by simp) hinv
  rw [show __ovpn_pktid_recv W s i t n =
    pktidRecvCheck W (pktidExpireFloor s n) i t n from rfl]
  simp only [pktidRecvCheck]
  by_cases hz : i = 0
  · rw [if_pos hz]
    exact PktidWindowInv_mono W A _ _ (fun t' y h => Or.inr h) hq
  · rw [if_neg hz]
    by_cases ht : t ≠ (pktidExpireFloor s n).time
    · rw [if_pos ht]
      by_cases ht2 : (pktidExpireFloor s n).time < t
      · rw [if_pos ht2]
        have hr : PktidWindowInv W A ({ pktidExpireFloor s n with base := 0, extent := 0, id := 0, time := t, id_floor := 0 }) := by
          refine ⟨?_, ?_, ?_⟩
          · show (0 : Nat) ≤ W
            omega
          · show (0 : Nat) < U32
            decide
          · intro d hd
            have hd' : d < 0 := hd
            omega
        exact C5_compareId W hW _ A i n hr hi hz
      · rw [if_neg ht2]
        exact PktidWindowInv_mono W A _ _ (fun t' y h => Or.inr h) hq
    · rw [if_neg ht]
      push_neg at ht
      rw [ht]
      exact C5_compareId W hW (pktidExpireFloor s n) A i n hq hi hz

lemma C5_trace (W : Nat) (hW : 0 < W) :
    ∀ (L : List (Nat × Nat × Nat)) (s : PktidRecv) (A : Nat → Nat → Prop),
      PktidWindowInv W A s → (∀ x ∈ L, x.1 < U32) →
      PktidWindowInv W
        (fun t' y => (t', y) ∈ (pktidRecvTrace W s L).2 ∨ A t' y)
        (pktidRecvTrace W s L).1 := by
  intro L
  induction L with
  | nil =>
    intro s A hinv _
    exact PktidWindowInv_mono W A _ s (fun t y h => Or.inr h) hinv
  | cons x L ih =>
    intro s A hinv hlt
    have hstep := C5_step W hW s A x.1 x.2.1 x.2.2 hinv (hlt x (List.mem_cons_self x L))
    have hih := ih (__ovpn_pktid_recv W s x.1 x.2.1 x.2.2).1
      (fun t' y =>
        ((__ovpn_pktid_recv W s x.1 x.2.1 x.2.2).2 = none ∧ t' = x.2.1 ∧ y = x.1) ∨
          A t' y)
      hstep (fun z hz => hlt z (List.mem_cons_of_mem _ hz))
    simp only [pktidRecvTrace]
    refine PktidWindowInv_mono W _ _ _ ?_ hih
    intro t' y h
    rcases h with h | h
    · exact Or.inl (List.mem_append_right _ h)
    · rcases h with ⟨hnone, rfl, rfl⟩ | h
      · refine Or.inl (List.mem_append_left _ ?_)
        rw [if_pos hnone]
        exact List.mem_singleton_self _
      · exact Or.inr h

/-- Claim C5: after every trace of calls to `__ovpn_pktid_recv` from
the initial state (accepting or rejecting, with `__u32` packet ids),
`extent ≤ W`, and every set bit in `history` at a ring index `d` in
`[0, extent)` relative to `base` corresponds to a previously accepted
packet `(epoch, id - d)` of the trace whose id lies in the half-open
range `(id - extent, id]`. -/
theorem C5_window_invariant (W : Nat) (L : List (Nat × Nat × Nat))
    (hW : 0 < W) (hlt : ∀ x ∈ L, x.1 < U32) :
    (pktidRecvTrace W ovpn_pktid_recv_init L).1.extent ≤ W ∧
    (∀ d, d < (pktidRecvTrace W ovpn_pktid_recv_init L).1.extent →
      replayIndex W (pktidRecvTrace W ovpn_pktid_recv_init L).1.base (d : Int) ∈
        (pktidRecvTrace W ovpn_pktid_recv_init L).1.history →
      ((pktidRecvTrace W ovpn_pktid_recv_init L).1.time,
        (pktidRecvTrace W ovpn_pktid_recv_init L).1.id - d) ∈
          (pktidRecvTrace W ovpn_pktid_recv_init L).2 ∧
      (pktidRecvTrace W ovpn_pktid_recv_init L).1.id -
          (pktidRecvTrace W ovpn_pktid_recv_init L).1.extent <
        (pktidRecvTrace W ovpn_pktid_recv_init L).1.id - d ∧
      (pktidRecvTrace W ovpn_pktid_recv_init L).1.id - d ≤
        (pktidRecvTrace W ovpn_pktid_recv_init L).1.id) := by
  have hinv0 : PktidWindowInv W (fun _ _ => False) ovpn_pktid_recv_init := by
    refine ⟨?_, ?_, ?_⟩
    · show (0 : Nat) ≤ W
      omega
    · show (0 : Nat) < U32
      decide
    · intro d hd
      have hd' : d < 0 := hd
      omega
  have h := C5_trace W hW L ovpn_pktid_recv_init (fun _ _ => False) hinv0 hlt
  obtain ⟨h1, h2, h3⟩ := h
  refine ⟨h1, ?_⟩
  intro d hd hm
  obtain ⟨hdlt, hpair⟩ := h3 d hd hm
  rcases hpair with hp | hf
  · exact ⟨hp, by omega, by omega⟩
  · exact hf.elim

theorem C5_witness :
    (pktidRecvTrace 64 ovpn_pktid_recv_init
        [(1, 1000, 0), (3, 1000, 0), (2, 1000, 0)]).1.extent ≤ 64 ∧
    ((pktidRecvTrace 64 ovpn_pktid_recv_init
        [(1, 1000, 0), (3, 1000, 0), (2, 1000, 0)]).1.time,
      (pktidRecvTrace 64 ovpn_pktid_recv_init
        [(1, 1000, 0), (3, 1000, 0), (2, 1000, 0)]).1.id - 1) ∈
      (pktidRecvTrace 64 ovpn_pktid_recv_init
        [(1, 1000, 0), (3, 1000, 0), (2, 1000, 0)]).2 := by
  have h := C5_window_invariant 64 [(1, 1000, 0), (3, 1000, 0), (2, 1000, 0)]
    (by decide) (by decide)
  exact ⟨h.1, (h.2 1 (by decide) (by decide)).1⟩

/-- Claim C10: the headroom validity guard in the TX pipeline is
unreachable — `headroom` has unsigned type, so the `headroom < 0` branch
of `do_ovpn_net_xmit` can never be taken, and whenever a peer, binding
and primary context are present the computed encapsulation headroom is
passed to encrypt unvalidated. -/
theorem C10_headroom_guard_unreachable (peer : Option XmitPeer) :
    do_ovpn_net_xmit peer ≠ XmitResult.headroomDrop ∧
    (∀ (p : XmitPeer) (bind : OvpnBind) (cc kid : Nat),
      peer = some p → p.bind = some bind → p.primary = some (cc, kid) →
      do_ovpn_net_xmit peer =
        XmitResult.encrypt cc (ovpn_bind_udp_encap_overhead bind ETH_HLEN) kid) := by
  constructor
  · match peer with
    | none => simp [do_ovpn_net_xmit]
    | some p =>
      match hb : p.bind with
      | none => simp [do_ovpn_net_xmit, hb]
      | some bind =>
        match hc : p.primary with
        | none => simp [do_ovpn_net_xmit, hb, hc]
        | some ck => simp [do_ovpn_net_xmit, hb, hc]
  · rintro p bind cc kid rfl hb hc
    simp [do_ovpn_net_xmit, hb, hc]

theorem C10_witness :
    do_ovpn_net_xmit (some { bind := some { isIPv6 := false }, primary := some (3, 1) }) =
      XmitResult.encrypt 3 42 1 := by
  have h := C10_headroom_guard_unreachable
    (some { bind := some { isIPv6 := false }, primary := some (3, 1) })
  have h2 := h.2 { bind := some { isIPv6 := false }, primary := some (3, 1) }
    { isIPv6 := false } 3 1 rfl rfl rfl
  simpa using h2

/-- Claim C8: keepalive RX — for every successfully decrypted buffer
whose payload equals the 16-byte keepalive magic, the post-decrypt
handler `tun_netdev_write` updates the peer's RX keepalive timestamp and
consumes the buffer without calling the virtual interface's receive
entry (no `netif_rx`), and the path is not reported as an error
(return 0). -/
theorem C8_keepalive_rx (skb : List Nat) (h : ovpn_is_keepalive skb = true) :
    tun_netdev_write skb =
      { keepaliveUpdated := true, effect := TunWriteEffect.consumed, ret := 0 } := by
  have hskb : skb = ovpn_keepalive_message := by
    simpa [ovpn_is_keepalive] using h
  subst hskb
  rfl

theorem C8_witness :
    tun_netdev_write ovpn_keepalive_message =
      { keepaliveUpdated := true, effect := TunWriteEffect.consumed, ret := 0 } :=
  C8_keepalive_rx ovpn_keepalive_message (by decide)

/-- Claim C7: RX dispatch — if the opcode of a received transport
packet is not a data-channel opcode or no peer matches, `ovpn_recv_crypto`
forwards the packet verbatim to the control plane (userspace via netlink)
and never invokes the AEAD decrypt on it; decrypt is invoked only when a
peer is present, the opcode is a data-channel opcode, and a crypto
context exists for the extracted key id. -/
theorem C7_rx_dispatch (peer : Option RxPeer) (op : Nat) (skb : List Nat) :
    ((peer = none ∨ ovpn_opcode_is_data op = false) →
      ovpn_recv_crypto peer op skb = RxResult.userspace skb) ∧
    (∀ (cc kid op' : Nat) (pl : List Nat),
      ovpn_recv_crypto peer op skb = RxResult.decrypt cc kid op' pl →
      ovpn_opcode_is_data op = true ∧ kid = ovpn_key_id_extract op ∧
      op' = op ∧ pl = skb ∧
      ∃ p, peer = some p ∧ p.crypto (ovpn_key_id_extract op) = some cc) := by
  constructor
  · rintro (rfl | hd)
    · rfl
    · match peer with
      | none => rfl
      | some p => simp [ovpn_recv_crypto, hd]
  · intro cc kid op' pl h
    match peer with
    | none => simp [ovpn_recv_crypto] at h
    | some p =>
      by_cases hd : ovpn_opcode_is_data op = false
      · simp [ovpn_recv_crypto, hd] at h
      · rw [Bool.not_eq_false] at hd
        match hcc : p.crypto (ovpn_key_id_extract op) with
        | none => simp [ovpn_recv_crypto, hd, hcc] at h
        | some c =>
          simp [ovpn_recv_crypto, hd, hcc] at h
          exact ⟨hd, h.2.1.symm, h.2.2.1.symm, h.2.2.2.symm, p, rfl, by rw [hcc, h.1]⟩

theorem C7_witness :
    ovpn_recv_crypto none 48 [48, 1, 2] = RxResult.userspace [48, 1, 2] ∧
    ovpn_recv_crypto (some { crypto := fun _ => some 5 }) 77 [77, 1] =
      RxResult.decrypt 5 5 77 [77, 1] := by
  refine ⟨(C7_rx_dispatch none 48 [48, 1, 2]).1 (Or.inl rfl), ?_⟩
  rfl

/-- Claim C6: the transmit packet-id source fails with REKEY-NEEDED
instead of producing a wrapped packet id: when the next increment of the
sequence counter would make the 32-bit packet id reach `0xFFFFFFFF` or
beyond, `next()` returns the error, emits no packet id and leaves the
counter where it is; every successfully emitted packet id is the
incremented counter, nonzero, and at most `0xFFFFFFFE`. -/
theorem C6_tx_wrap_rekey (p : PktidXmit) :
    (∀ i, (ovpn_pktid_xmit_next p).2 = Except.ok i →
      i = p.seq_num + 1 ∧ 1 ≤ i ∧ i < 4294967295) ∧
    (4294967295 ≤ p.seq_num + 1 →
      (ovpn_pktid_xmit_next p).2 = Except.error PktidXmitErr.rekeyNeeded ∧
      (ovpn_pktid_xmit_next p).1 = p) := by
  unfold ovpn_pktid_xmit_next
  split
  · refine ⟨fun i h => by simp at h, fun _ => ⟨rfl, rfl⟩⟩
  · next hlt =>
    refine ⟨fun i h => ?_, fun hge => absurd hge hlt⟩
    simp at h
    omega

theorem C6_witness :
    (ovpn_pktid_xmit_next { seq_num := 4294967294 }).2 =
      Except.error PktidXmitErr.rekeyNeeded ∧
    (ovpn_pktid_xmit_next { seq_num := 0 }).2 = Except.ok 1 ∧ (1 : Nat) < 4294967295 := by
  refine ⟨((C6_tx_wrap_rekey { seq_num := 4294967294 }).2 (by norm_num)).1, rfl, ?_⟩
  have h := (C6_tx_wrap_rekey { seq_num := 0 }).1 1 rfl
  exact h.2.2


end OvpnDco
